import Mathlib

/-!
Verification of the dictionary lookup and resolution engine of the
fastapi-web-dictionary repository, shallowly embedded from
`app/service/mdx_service.py` and `app/service/dict_install_service.py`.

Record bytes are modelled by their decoded text (the byte decoder
`_safe_decode` of the source acts as the identity on already-decoded text,
and no claim depends on a particular byte encoding).  Python dicts are
modelled as insertion-ordered association lists with unique keys; Python
`hash` on a record is modelled injectively (by the record itself).
-/

namespace MdxEngine

/-- The ASCII whitespace characters stripped by Python `str.strip()`
(the model is restricted to ASCII inputs). -/
def isPyWS (c : Char) : Bool :=
  c = ' ' || c = '\t' || c = '\n' || c = '\r' || c = '\x0b' || c = '\x0c'

/-- Python `str.strip()` on the ASCII range. -/
def pyStrip (s : String) : String :=
  String.mk (((s.toList.dropWhile isPyWS).reverse.dropWhile isPyWS).reverse)

/-- Python `str.lower()` restricted to ASCII letters. -/
def pyLower (s : String) : String :=
  String.mk (s.toList.map Char.toLower)

/-- Python `str.casefold()`: full Unicode casefolding in Python, which on the
ASCII range used throughout this development coincides with lowercasing. -/
def pyCasefold (s : String) : String :=
  String.mk (s.toList.map Char.toLower)

/-- `s.startswith(pre)` on Python strings. -/
def pyStartsWith (s pre : String) : Bool :=
  pre.toList.isPrefixOf s.toList

/-- `s.endswith(suf)` on Python strings. -/
def pyEndsWith (s suf : String) : Bool :=
  suf.toList.isSuffixOf s.toList

/-- Python `s.replace("\\", "/")` (single-character pattern). -/
def replaceBackslashes (s : String) : String :=
  String.mk (s.toList.map (fun c => if c = '\\' then '/' else c))

/-- `s.split(sep, 1)[0]` for a one-character separator: the text before the
first occurrence of `sep`. -/
def takeBefore (sep : Char) (s : String) : String :=
  String.mk (s.toList.takeWhile (fun c => c ≠ sep))

/-- `s.lstrip("/")`: drop every leading slash. -/
def lstripSlashes (s : String) : String :=
  String.mk (s.toList.dropWhile (fun c => c = '/'))

/-- Drop the first `n` characters of a string. -/
def pyDrop (s : String) (n : Nat) : String :=
  String.mk (s.toList.drop n)

/-- The text after the first occurrence of `pat`, or `none` when `pat` does
not occur: the `[1]` component of Python `s.split(pat, 1)`. -/
def splitAfterFirstChars (pat : List Char) : List Char → Option (List Char)
  | [] => none
  | c :: rest =>
    if pat.isPrefixOf (c :: rest) then some ((c :: rest).drop pat.length)
    else splitAfterFirstChars pat rest

def splitAfterFirst (s pat : String) : Option String :=
  (splitAfterFirstChars pat.toList s.toList).map String.mk

/-- Insertion-ordered association-list lookup, modelling Python `dict.get`
(keys are unique in every dict built by this development, so first match
equals the dict entry). -/
def dictGet {α : Type} : List (String × α) → String → Option α
  | [], _ => none
  | (k', v) :: rest, k => if k' = k then some v else dictGet rest k

/-- Python `d.setdefault(k, []).append(v)`: extend the list stored at `k` in
place, or append a new singleton binding at the end. -/
def dictSetdefaultAppend {α : Type} :
    List (String × List α) → String → α → List (String × List α)
  | [], k, v => [(k, [v])]
  | (k', vs) :: rest, k, v =>
    if k' = k then (k', vs ++ [v]) :: rest
    else (k', vs) :: dictSetdefaultAppend rest k v

/-- `_safe_decode` of the source, on the text model of record bytes: the
source returns its argument unchanged when it is already text. -/
def safeDecode (s : String) : String := s

/-- `re.search(r"@@@LINK=(?P<target>.+)", text)`: the earliest position where
the literal marker is followed by at least one non-newline character; the
captured target is the rest of that line. -/
def findLinkChars : List Char → Option (List Char)
  | [] => none
  | c :: rest =>
    if ("@@@LINK=".toList).isPrefixOf (c :: rest) then
      match (c :: rest).drop 8 with
      | [] => findLinkChars rest
      | d :: ds =>
        if d = '\n' then findLinkChars rest
        else some ((d :: ds).takeWhile (fun x => x ≠ '\n'))
    else findLinkChars rest

def findLink (s : String) : Option String :=
  (findLinkChars s.toList).map String.mk

/-- The loop body of `MdxService._resolve_mdx_link`, with the
`for _ in range(10)` bound made explicit as structural fuel.  The source
tracks a visited-target set `seen`, the currently reached headword and the
currently followed raw value; on fuel exhaustion it returns the current
pair. -/
def resolveMdxLinkGo (exact : List (String × List String)) :
    Nat → List String → String → String → String × List String
  | 0, _, curHead, curVal => (curHead, [curVal])
  | fuel + 1, seen, curHead, curVal =>
    let text := safeDecode curVal
    match findLink text with
    | none => (curHead, [curVal])
    | some raw =>
      let target := pyStrip raw
      if target = "" ∨ target ∈ seen then (curHead, [curVal])
      else
        match dictGet exact target with
        | none => (target, [curVal])
        | some [] => (target, [curVal])
        | some (tv :: _) => resolveMdxLinkGo exact fuel (target :: seen) target tv

/-- `MdxService._resolve_mdx_link(exact_map, head, val)`. -/
def resolveMdxLink (exact : List (String × List String)) (head val : String) :
    String × List String :=
  resolveMdxLinkGo exact 10 [] head val

/-- The number of redirect hops actually followed by `resolveMdxLinkGo`:
mirrors the loop, counting one per iteration that moves to a target. -/
def resolveMdxLinkSteps (exact : List (String × List String)) :
    Nat → List String → String → Nat
  | 0, _, _ => 0
  | fuel + 1, seen, curVal =>
    match findLink (safeDecode curVal) with
    | none => 0
    | some raw =>
      let target := pyStrip raw
      if target = "" ∨ target ∈ seen then 0
      else
        match dictGet exact target with
        | none => 0
        | some [] => 0
        | some (tv :: _) => 1 + resolveMdxLinkSteps exact fuel (target :: seen) tv

/-- The value of a hexadecimal digit character, when it is one. -/
def hexVal (c : Char) : Option Nat :=
  if '0' ≤ c ∧ c ≤ '9' then some (c.toNat - 48)
  else if 'a' ≤ c ∧ c ≤ 'f' then some (c.toNat - 87)
  else if 'A' ≤ c ∧ c ≤ 'F' then some (c.toNat - 55)
  else none

/-- `urllib.parse.unquote`, modelled on ASCII percent-escapes: a percent sign
followed by two hex digits becomes the character with that code point, and a
percent sign not followed by two hex digits is kept as-is (as in Python).
Python decodes escaped bytes as UTF-8 with replacement, which coincides with
this model on the ASCII range, where every input of this development lives. -/
def unquoteChars : List Char → List Char
  | [] => []
  | '%' :: a :: b :: rest =>
    match hexVal a, hexVal b with
    | some x, some y => Char.ofNat (16 * x + y) :: unquoteChars rest
    | _, _ => '%' :: unquoteChars (a :: b :: rest)
  | c :: rest => c :: unquoteChars rest

def pyUnquote (s : String) : String :=
  String.mk (unquoteChars s.toList)

/-- The UTF-8 encoding of one character, as byte values. -/
def charUtf8 (c : Char) : List Nat :=
  let n := c.toNat
  if n < 0x80 then [n]
  else if n < 0x800 then [0xC0 + n / 64, 0x80 + n % 64]
  else if n < 0x10000 then [0xE0 + n / 4096, 0x80 + (n / 64) % 64, 0x80 + n % 64]
  else [0xF0 + n / 262144, 0x80 + (n / 4096) % 64, 0x80 + (n / 64) % 64, 0x80 + n % 64]

/-- Bytes left unescaped by `urllib.parse.quote` with its default safe set:
ASCII letters, digits, the characters underscore, dot, hyphen, tilde, and
the default safe character slash. -/
def isQuoteSafeByte (b : Nat) : Bool :=
  (65 ≤ b && b ≤ 90) || (97 ≤ b && b ≤ 122) || (48 ≤ b && b ≤ 57) ||
    b = 95 || b = 46 || b = 45 || b = 126 || b = 47

def hexDigitUpper (n : Nat) : Char :=
  if n < 10 then Char.ofNat (48 + n) else Char.ofNat (55 + n)

def quoteByte (b : Nat) : List Char :=
  if isQuoteSafeByte b then [Char.ofNat b]
  else ['%', hexDigitUpper (b / 16), hexDigitUpper (b % 16)]

/-- `urllib.parse.quote(s)`: percent-encode the UTF-8 bytes of `s`, keeping
the default safe set unescaped, with uppercase hex digits. -/
def pyQuote (s : String) : String :=
  String.mk (((s.toList.map charUtf8).flatten.map quoteByte).flatten)

/-- The replacement function `repl` inside `rewrite_mdx_html`, applied to one
attribute match: `attrT` is the attribute name as written, `q` the quote
character and `urlRaw` the unstripped captured value.  Returns the text that
replaces the whole match. -/
def mdxRepl (dictId : Nat) (attrT : String) (q : Char) (urlRaw : String) : String :=
  let qs := String.mk [q]
  let m0 := attrT ++ "=" ++ qs ++ urlRaw ++ qs
  let url := pyStrip urlRaw
  if url = "" then m0
  else if pyStartsWith url "http://" || pyStartsWith url "https://" ||
      pyStartsWith url "data:" then m0
  else if pyStartsWith (pyLower url) "sound://" then
    match splitAfterFirst url "sound://" with
    | some tail =>
      let rel := replaceBackslashes (lstripSlashes tail)
      attrT ++ "=" ++ qs ++ "/dict_asset/" ++ toString dictId ++ "/" ++ rel ++ qs
    | none => m0
      -- unreachable for lowercase schemes; the source raises IndexError when
      -- the scheme appears only in mixed case, a path no claim exercises
  else if pyStartsWith (pyLower url) "entry://" ||
      pyStartsWith (pyLower url) "bword://" then
    let target := pyStrip ((splitAfterFirst url "://").getD "")
    attrT ++ "=" ++ qs ++ "/dictionary/entry?dict_id=" ++ toString dictId ++
      "&q=" ++ pyQuote target ++ qs
  else
    let urlN :=
      if pyStartsWith url "file:///" || pyStartsWith url "file://" then
        lstripSlashes ((splitAfterFirst url "file://").getD url)
      else url
    let urlN := replaceBackslashes urlN
    let urlN := takeBefore '?' urlN
    let urlN := takeBefore '#' urlN
    let urlN := if pyStartsWith urlN "./" then pyDrop urlN 2 else urlN
    let urlN := lstripSlashes urlN
    if urlN = "" || pyStartsWith urlN "#" then m0
    else attrT ++ "=" ++ qs ++ "/dict_asset/" ++ toString dictId ++ "/" ++ urlN ++ qs

/-- The lazy `.*?` capture of `_ATTR_RE` up to the closing quote: characters
before the first occurrence of `q`, failing when a newline intervenes or the
quote never closes (regex `.` does not match a newline). -/
def takeUrl (q : Char) : List Char → Option (List Char × List Char)
  | [] => none
  | c :: rest =>
    if c = q then some ([], rest)
    else if c = '\n' then none
    else
      match takeUrl q rest with
      | some (u, r) => some (c :: u, r)
      | none => none

/-- Match `=` then a quoted value at the start of `l`; the quote character is
a double or single quote, and the closing quote must be identical. -/
def matchEqQuoted : List Char → Option (Char × List Char × List Char)
  | '=' :: qc :: rest =>
    if qc = '"' || qc = Char.ofNat 39 then
      (takeUrl qc rest).map (fun p => (qc, p.1, p.2))
    else none
  | _ => none

/-- Match one named attribute (case-insensitively) at the start of `l`,
returning the attribute text as written, the quote, the captured value and
the remainder after the match. -/
def matchAttrNamed (name : List Char) (l : List Char) :
    Option (List Char × Char × List Char × List Char) :=
  let attrT := l.take name.length
  if attrT.map Char.toLower = name then
    match matchEqQuoted (l.drop name.length) with
    | some (q, url, after) => some (attrT, q, url, after)
    | none => none
  else none

/-- One attempt of `_ATTR_RE` at the current position: `src` or `href`
(case-insensitive), `=`, a quoted value on one line. -/
def matchAttrAt (l : List Char) : Option (List Char × Char × List Char × List Char) :=
  match matchAttrNamed "src".toList l with
  | some r => some r
  | none => matchAttrNamed "href".toList l

/-- Left-to-right, non-overlapping scan of `re.sub`: at each position try the
attribute pattern; on a match emit the replacement and continue after the
match, otherwise keep the character.  The fuel, instantiated with the input
length, always suffices because every step consumes at least one character. -/
def attrSubGo (dictId : Nat) : Nat → List Char → List Char
  | 0, l => l
  | _ + 1, [] => []
  | fuel + 1, c :: rest =>
    match matchAttrAt (c :: rest) with
    | some (attrT, q, url, after) =>
      (mdxRepl dictId (String.mk attrT) q (String.mk url)).toList ++
        attrSubGo dictId fuel after
    | none => c :: attrSubGo dictId fuel rest

/-- `rewrite_mdx_html(dict_id, html)`. -/
def rewriteMdxHtml (dictId : Nat) (html : String) : String :=
  String.mk (attrSubGo dictId html.toList.length html.toList)

/-- Dictionary metadata, read from the storage layer (`app/models/dictionary.py`);
only the fields the engine reads are modelled. -/
structure Dictionary where
  id : Nat
  folder : String
  mdx_filename : String
deriving DecidableEq, Repr

/-- One matching entry returned by an MDX lookup (`EntryResult`). -/
structure EntryResult where
  headword : String
  html : String
deriving DecidableEq, Repr

/-- Lookup output (`LookupResult`). -/
structure LookupResult where
  found : Bool
  lookup_key : String
  entries : List EntryResult
deriving DecidableEq, Repr

/-- `DictLookupError`, one constructor per distinct message raised by
`MdxService` (the missing-dependency branch is not modelled: the decoding
library is treated as an installed external collaborator). -/
inductive DictLookupError where
  | emptyWord
  | dictNotFound
  | mdxFileMissing
  | invalidAssetPath
  | assetNotFound
deriving DecidableEq, Repr

/-- Whether an `Except` value is an error. -/
def exIsError {ε α : Type} : Except ε α → Bool
  | .error _ => true
  | .ok _ => false

/-- The inner loop of `MdxService.lookup` over the resolved values of one
record: thread the `seen` set of `(resolved_headword, record)` pairs
(Python uses `hash(record)`, modelled injectively) and append one rendered
entry per unseen pair. -/
def addResolved (dictId : Nat) (rh : String) :
    List String → List (String × String) → List EntryResult × List (String × String)
  | [], seen => ([], seen)
  | rv :: rest, seen =>
    if (rh, rv) ∈ seen then addResolved dictId rh rest seen
    else
      let p := addResolved dictId rh rest ((rh, rv) :: seen)
      (⟨rh, rewriteMdxHtml dictId (safeDecode rv)⟩ :: p.1, p.2)

/-- The outer loop of `MdxService.lookup`: resolve each raw value under the
matched key and accumulate deduplicated entries. -/
def buildEntriesGo (dictId : Nat) (exact : List (String × List String))
    (lookupKey : String) :
    List String → List (String × String) → List EntryResult
  | [], _ => []
  | v :: vs, seen =>
    let r := resolveMdxLink exact lookupKey v
    let p := addResolved dictId r.1 r.2 seen
    p.1 ++ buildEntriesGo dictId exact lookupKey vs p.2

def buildEntries (dictId : Nat) (exact : List (String × List String))
    (lookupKey : String) (vals : List String) : List EntryResult :=
  buildEntriesGo dictId exact lookupKey vals []

/-- `MdxService.lookup(dict_id, word)`.  The dictionary metadata lookup and
the on-disk presence of the headword file are passed in (`d?`, `mdxExists`),
and the maps built by `_get_mdx_maps_cached` are passed in (`exact`,
`cfMap`) — the cache is transparent to the result. -/
def lookup (dictId : Nat) (d? : Option Dictionary) (mdxExists : Bool)
    (exact : List (String × List String)) (cfMap : List (String × String))
    (word0 : String) : Except DictLookupError LookupResult :=
  let word := pyStrip word0
  if word = "" then .error .emptyWord
  else
    match d? with
    | none => .error .dictNotFound
    | some _ =>
      if mdxExists = false then .error .mdxFileMissing
      else
        let kv : String × Option (List String) :=
          match dictGet exact word with
          | some vs => (word, some vs)
          | none =>
            match dictGet cfMap (pyCasefold word) with
            | some mapped => (mapped, dictGet exact mapped)
            | none => (word, none)
        match kv.2 with
        | none => .ok ⟨false, word, []⟩
        | some [] => .ok ⟨false, word, []⟩
        | some (v :: vs) => .ok ⟨true, kv.1, buildEntries dictId exact kv.1 (v :: vs)⟩

/-- One iteration of the index-building loop in `_get_mdx_maps_cached`:
append the record under its decoded key, and register the first-seen
representative for its casefold. -/
def mdxBuildStep (acc : List (String × List String) × List (String × String))
    (kv : String × String) :
    List (String × List String) × List (String × String) :=
  let ks := safeDecode kv.1
  let exact := dictSetdefaultAppend acc.1 ks kv.2
  let cf := pyCasefold ks
  let cfMap :=
    match dictGet acc.2 cf with
    | some _ => acc.2
    | none => acc.2 ++ [(cf, ks)]
  (exact, cfMap)

/-- `_get_mdx_maps_cached`, over the `(key, value)` items yielded by the
decoding adapter in source iteration order. -/
def buildMdxMaps (items : List (String × String)) :
    List (String × List String) × List (String × String) :=
  items.foldl mdxBuildStep ([], [])

/-- The representative headword the builder stores for a casefold class: the
first item whose decoded key casefolds to `c`. -/
def firstRep (items : List (String × String)) (c : String) : Option String :=
  (items.find? (fun kv => pyCasefold (safeDecode kv.1) == c)).map
    (fun kv => safeDecode kv.1)

/-- Filesystem paths are modelled as their absolute segment lists.  Splitting
a path string into raw segments keeps `.` and `..`; `resolveSegs` then
normalises them the way `pathlib.Path.resolve` does on POSIX (symlink-free):
empty and `.` segments vanish, `..` pops one segment and is a no-op at the
root. -/
def splitSegsAux : List Char → List Char → List String
  | [], cur => [String.mk cur.reverse]
  | c :: rest, cur =>
    if c = '/' then String.mk cur.reverse :: splitSegsAux rest []
    else splitSegsAux rest (c :: cur)

def pathSegsOf (s : String) : List String :=
  splitSegsAux s.toList []

def resolveSegs (raw : List String) : List String :=
  raw.foldl
    (fun acc seg =>
      if seg = "" ∨ seg = "." then acc
      else if seg = ".." then acc.dropLast
      else acc ++ [seg])
    []

/-- `str(path)` for an absolute path given by its segments. -/
def renderAbs (segs : List String) : String :=
  if segs = [] then "/" else segs.foldl (fun acc s => acc ++ "/" ++ s) ""

/-- `mimetypes.guess_type(name)[0]`, restricted to a fixed table of the
extensions this development exercises (matched case-insensitively on the
suffix after the last dot, as `mimetypes` does); any other name yields
`none` and callers substitute the octet-stream default. -/
def fileExtLower (s : String) : String :=
  let r := s.toList.reverse
  if r.contains '.' then
    String.mk (('.' :: (r.takeWhile (fun c => c ≠ '.')).reverse).map Char.toLower)
  else ""

def guessMime (name : String) : Option String :=
  match fileExtLower name with
  | ".png" => some "image/png"
  | ".jpg" => some "image/jpeg"
  | ".jpeg" => some "image/jpeg"
  | ".gif" => some "image/gif"
  | ".css" => some "text/css"
  | ".js" => some "text/javascript"
  | ".html" => some "text/html"
  | ".mp3" => some "audio/mpeg"
  | _ => none

/-- `_get_mdd_map_cached`, over the `(key, value)` items of one packed-asset
file: decode the key, normalise backslashes, strip one leading `./`, strip
leading slashes, and store last-seen-wins (Python dict assignment keeps the
original position on overwrite). -/
def dictAssign {α : Type} : List (String × α) → String → α → List (String × α)
  | [], k, v => [(k, v)]
  | (k', v') :: rest, k, v =>
    if k' = k then (k', v) :: rest else (k', v') :: dictAssign rest k v

def mddKeyNorm (k : String) : String :=
  let key := replaceBackslashes (safeDecode k)
  let key := if pyStartsWith key "./" then pyDrop key 2 else key
  lstripSlashes key

def buildMddMap (items : List (String × String)) : List (String × String) :=
  items.foldl (fun out kv => dictAssign out (mddKeyNorm kv.1) kv.2) []

/-- The probe loop of `get_asset_bytes`: for every packed-asset map in
discovery order, try each key variant (normalised the way the source
normalises it just before the membership test) and return the first hit
together with the key that hit. -/
def probeOneMdd (mdd : List (String × String)) :
    List String → Option (String × String)
  | [] => none
  | k :: ks =>
    let kNorm := lstripSlashes (replaceBackslashes k)
    match dictGet mdd kNorm with
    | some v => some (v, kNorm)
    | none => probeOneMdd mdd ks

def probeMdds (cands : List String) : List (List (String × String)) → Option (String × String)
  | [] => none
  | mdd :: rest =>
    match probeOneMdd mdd cands with
    | some hit => some hit
    | none => probeMdds cands rest

/-- `MdxService.get_asset_bytes(dict_id, asset_path)`.  The resolved
dictionary root is given as segments; `disk` maps resolved absolute paths of
existing regular files to their bytes; `mdds` holds the raw item lists of
the packed-asset files found under the base folder, in discovery order (the
decoding library is treated as installed). -/
def getAssetBytes (dictRoot : List String) (d? : Option Dictionary)
    (disk : List (List String × String)) (mdds : List (List (String × String)))
    (assetPath : String) : Except DictLookupError (String × String) :=
  match d? with
  | none => .error .dictNotFound
  | some d =>
    let ap := replaceBackslashes (pyUnquote assetPath)
    let ap := takeBefore '?' ap
    let ap := takeBefore '#' ap
    let ap := lstripSlashes ap
    let baseDir := resolveSegs (dictRoot ++ pathSegsOf d.folder)
    let candidate := resolveSegs (baseDir ++ pathSegsOf ap)
    if pyStartsWith (renderAbs candidate) (renderAbs baseDir) = false then
      .error .invalidAssetPath
    else
      match disk.lookup candidate with
      | some data =>
        .ok (data, (guessMime (candidate.getLastD "")).getD "application/octet-stream")
      | none =>
        if mdds = [] then .error .assetNotFound
        else
          let keyCandidates := [ap, lstripSlashes ap, "/" ++ lstripSlashes ap]
          match probeMdds keyCandidates (mdds.map buildMddMap) with
          | some (v, kNorm) =>
            .ok (v, (guessMime kNorm).getD "application/octet-stream")
          | none => .error .assetNotFound

/-- `DictInstallError`, one constructor per failure of
`DictInstallService.install_from_zip_bytes`; `repoFailure` stands for a
failure of the storage layer's `create`. -/
inductive DictInstallError where
  | nameTooShort
  | unsafePaths
  | badMdxCount
  | repoFailure
deriving DecidableEq, Repr

/-- The on-disk observables of one install attempt: whether the
per-dictionary folder exists afterwards, and whether the archive was ever
extracted into it. -/
structure InstallState where
  folderExists : Bool
  everExtracted : Bool
deriving DecidableEq, Repr

/-- `pathlib.PurePath(member).parts` without the root marker: `.` and empty
segments vanish, `..` is kept. -/
def pyPathParts (s : String) : List String :=
  (pathSegsOf s).filter (fun seg => seg ≠ "" ∧ seg ≠ ".")

/-- The per-entry safety test of the installer:
`Path(member).is_absolute() or ".." in Path(member).parts`. -/
def isUnsafeMember (m : String) : Bool :=
  pyStartsWith m "/" || (pyPathParts m).contains ".."

/-- `DictInstallService.install_from_zip_bytes(name, zip_bytes)`.  The
archive is modelled by its entry names; `rglob("*.mdx")` over the extracted
tree is the entries with that suffix; `repoOk`/`meta` model the storage
layer's `create`.  Every entry name is validated before `extractall`, and
the `except` handler removes the whole folder on any failure after its
creation. -/
def installFromZipBytes (name0 : String) (entries : List String)
    (repoOk : Bool) (meta : Dictionary) :
    Except DictInstallError Dictionary × InstallState :=
  let name := pyStrip name0
  if name.length < 2 then (.error .nameTooShort, ⟨false, false⟩)
  else if entries.any isUnsafeMember then (.error .unsafePaths, ⟨false, false⟩)
  else
    let mdxCount := (entries.filter (fun m => pyEndsWith m ".mdx")).length
    if mdxCount ≠ 1 then (.error .badMdxCount, ⟨false, true⟩)
    else if repoOk = false then (.error .repoFailure, ⟨false, true⟩)
    else (.ok meta, ⟨true, true⟩)

/-! Concrete fixtures used by the claim theorems. -/

/-- An exact-match index whose headword `h` redirects to `t`, and `t` holds
two homograph records. -/
def exRedirectTwo : List (String × List String) :=
  [("h", ["@@@LINK=t"]), ("t", ["A", "B"])]

/-- An exact-match index whose single record redirects to a target absent
from the index. -/
def exBroken : List (String × List String) :=
  [("a", ["@@@LINK=b"])]

/-- A redirect chain of length 12: `k0` through `k11` each redirect to the
next key, `k12` is terminal. -/
def exChain12 : List (String × List String) :=
  [("k0", ["@@@LINK=k1"]), ("k1", ["@@@LINK=k2"]), ("k2", ["@@@LINK=k3"]),
   ("k3", ["@@@LINK=k4"]), ("k4", ["@@@LINK=k5"]), ("k5", ["@@@LINK=k6"]),
   ("k6", ["@@@LINK=k7"]), ("k7", ["@@@LINK=k8"]), ("k8", ["@@@LINK=k9"]),
   ("k9", ["@@@LINK=k10"]), ("k10", ["@@@LINK=k11"]), ("k11", ["@@@LINK=k12"]),
   ("k12", ["FINAL"])]

def dFix : Dictionary := ⟨3, "f3", "d.mdx"⟩

def dFoo : Dictionary := ⟨4, "foo", "d.mdx"⟩

/-- A dictionary installed directly under the filesystem root in a folder
named `etc` (a degenerate but expressible on-disk layout). -/
def dEtc : Dictionary := ⟨9, "etc", "d.mdx"⟩

/-- A packed-asset container holding one image under the key
`images/cat.png`. -/
def mddCat : List (List (String × String)) :=
  [[("images/cat.png", "CATBYTES")]]

end MdxEngine

namespace MdxEngine

/-! Helper lemmas shared by the claim theorems. -/

theorem resolveMdxLinkGo_snd_singleton (exact : List (String × List String)) :
    ∀ (fuel : Nat) (seen : List String) (h v : String),
      ∃ x, (resolveMdxLinkGo exact fuel seen h v).2 = [x] := by
  intro fuel
  induction fuel with
  | zero => intro seen h v; exact ⟨v, rfl⟩
  | succ n ih =>
    intro seen h v
    rw [resolveMdxLinkGo]
    cases hf : findLink (safeDecode v) with
    | none => exact ⟨v, rfl⟩
    | some raw =>
      by_cases hstop : pyStrip raw = "" ∨ pyStrip raw ∈ seen
      · simp only [hstop, if_pos]
        exact ⟨v, rfl⟩
      · simp only [hstop, if_neg, not_false_iff]
        cases hg : dictGet exact (pyStrip raw) with
        | none => exact ⟨v, rfl⟩
        | some vs =>
          cases vs with
          | nil => exact ⟨v, rfl⟩
          | cons tv rest => exact ih (pyStrip raw :: seen) (pyStrip raw) tv

theorem resolveMdxLinkSteps_le (exact : List (String × List String)) :
    ∀ (fuel : Nat) (seen : List String) (v : String),
      resolveMdxLinkSteps exact fuel seen v ≤ fuel := by
  intro fuel
  induction fuel with
  | zero => intro seen v; simp [resolveMdxLinkSteps]
  | succ n ih =>
    intro seen v
    rw [resolveMdxLinkSteps]
    cases hf : findLink (safeDecode v) with
    | none => exact Nat.zero_le _
    | some raw =>
      by_cases hstop : pyStrip raw = "" ∨ pyStrip raw ∈ seen
      · simp only [hstop, if_pos]; exact Nat.zero_le _
      · simp only [hstop, if_neg, not_false_iff]
        cases hg : dictGet exact (pyStrip raw) with
        | none => exact Nat.zero_le _
        | some vs =>
          cases vs with
          | nil => exact Nat.zero_le _
          | cons tv rest =>
            show 1 + resolveMdxLinkSteps exact n (pyStrip raw :: seen) tv ≤ n + 1
            have := ih (pyStrip raw :: seen) tv
            omega

theorem dictGet_setdefaultAppend {α : Type} (d : List (String × List α))
    (k : String) (v : α) (k' : String) :
    dictGet (dictSetdefaultAppend d k v) k' =
      if k' = k then some (((dictGet d k).getD []) ++ [v]) else dictGet d k' := by
  induction d with
  | nil =>
    by_cases h : k' = k
    · subst h; simp [dictSetdefaultAppend, dictGet]
    · simp [dictSetdefaultAppend, dictGet, h, Ne.symm h]
  | cons hd tl ih =>
    obtain ⟨k0, vs0⟩ := hd
    by_cases h0 : k0 = k
    · subst h0
      by_cases h' : k' = k0
      · subst h'; simp [dictSetdefaultAppend, dictGet]
      · simp [dictSetdefaultAppend, dictGet, h', Ne.symm h']
    · by_cases h' : k' = k0
      · subst h'
        simp [dictSetdefaultAppend, dictGet, h0, Ne.symm h0]
      · simp [dictSetdefaultAppend, dictGet, h0, h', Ne.symm h', ih]

theorem dictGet_append_some {α : Type} {d : List (String × α)} {c' : String}
    {v : α} (h : dictGet d c' = some v) (l : List (String × α)) :
    dictGet (d ++ l) c' = some v := by
  induction d with
  | nil => simp [dictGet] at h
  | cons hd tl ih =>
    obtain ⟨k0, v0⟩ := hd
    by_cases h0 : k0 = c'
    · simp [dictGet, h0] at h ⊢; exact h
    · simp [dictGet, h0] at h ⊢; exact ih h

theorem dictGet_append_none {α : Type} {d : List (String × α)} {c' : String}
    (h : dictGet d c' = none) (l : List (String × α)) :
    dictGet (d ++ l) c' = dictGet l c' := by
  induction d with
  | nil => simp
  | cons hd tl ih =>
    obtain ⟨k0, v0⟩ := hd
    by_cases h0 : k0 = c'
    · simp [dictGet, h0] at h
    · simp [dictGet, h0] at h ⊢; exact ih h

/-- The casefold map built by the fold stores, for each casefold class not
already present in the accumulator, the first-seen representative of the
remaining items. -/
theorem cfMap_foldl (c : String) :
    ∀ (items : List (String × String))
      (acc : List (String × List String) × List (String × String)),
      dictGet (List.foldl mdxBuildStep acc items).2 c =
        match dictGet acc.2 c with
        | some v => some v
        | none => firstRep items c := by
  intro items
  induction items with
  | nil =>
    intro acc
    simp only [List.foldl_nil, firstRep, List.find?_nil, Option.map_none]
    cases dictGet acc.2 c <;> rfl
  | cons kv rest ih =>
    intro acc
    rw [List.foldl_cons, ih]
    cases hacc : dictGet acc.2 c with
    | some w =>
      have hacc' : dictGet (mdxBuildStep acc kv).2 c = some w := by
        unfold mdxBuildStep
        cases hcf : dictGet acc.2 (pyCasefold (safeDecode kv.1)) with
        | some u => simpa [hcf] using hacc
        | none =>
          simp only [hcf]
          exact dictGet_append_some hacc _
      rw [hacc']
    | none =>
      by_cases hc : pyCasefold (safeDecode kv.1) = c
      · have hcf : dictGet acc.2 (pyCasefold (safeDecode kv.1)) = none := by
          rw [hc]; exact hacc
        have hacc' : dictGet (mdxBuildStep acc kv).2 c = some (safeDecode kv.1) := by
          unfold mdxBuildStep
          simp only [hcf]
          rw [dictGet_append_none hacc]
          simp [dictGet, hc]
        rw [hacc']
        simp [firstRep, List.find?_cons, hc]
      · have hfr : firstRep (kv :: rest) c = firstRep rest c := by
          simp [firstRep, List.find?_cons, hc]
        rw [hfr]
        have hacc' : dictGet (mdxBuildStep acc kv).2 c = none := by
          unfold mdxBuildStep
          cases hcf : dictGet acc.2 (pyCasefold (safeDecode kv.1)) with
          | some u => simpa [hcf] using hacc
          | none =>
            simp only [hcf]
            rw [dictGet_append_none hacc]
            simp [dictGet, hc]
        rw [hacc']

/-- Every key that occurs among the items (or already held a non-empty list
in the accumulator) ends up bound to a non-empty record list in the exact
map built by the fold. -/
theorem exact_foldl_mem (k : String) :
    ∀ (items : List (String × String))
      (acc : List (String × List String) × List (String × String)),
      ((∃ vs, dictGet acc.1 k = some vs ∧ vs ≠ []) ∨
        k ∈ items.map (fun kv => safeDecode kv.1)) →
      ∃ vs, dictGet (List.foldl mdxBuildStep acc items).1 k = some vs ∧ vs ≠ [] := by
  intro items
  induction items with
  | nil =>
    intro acc h
    rcases h with h | h
    · simpa using h
    · simp at h
  | cons kv rest ih =>
    intro acc h
    rw [List.foldl_cons]
    apply ih
    by_cases hk : safeDecode kv.1 = k
    · left
      refine ⟨((dictGet acc.1 k).getD []) ++ [kv.2], ?_, by simp⟩
      show dictGet (dictSetdefaultAppend acc.1 (safeDecode kv.1) kv.2) k = _
      rw [dictGet_setdefaultAppend]
      simp [hk]
    · rcases h with h | h
      · left
        obtain ⟨vs, hvs, hne⟩ := h
        refine ⟨vs, ?_, hne⟩
        show dictGet (dictSetdefaultAppend acc.1 (safeDecode kv.1) kv.2) k = _
        rw [dictGet_setdefaultAppend]
        rw [if_neg (Ne.symm hk)]
        exact hvs
      · right
        simp only [List.map_cons, List.mem_cons] at h
        rcases h with h | h
        · exact absurd h.symm hk
        · exact h

/-! Claim theorems. -/

/-- C1: at a redirect whose target key holds the two raw values `A` and `B`,
the resolver returns only the first value followed, not every value
registered under the final headword, so the lookup renders a single entry
where the claim requires two.  This contradicts the resolver's own
docstring and inline comment, which promise to return the full list. -/
theorem spec_c1 :
    resolveMdxLink exRedirectTwo "h" "@@@LINK=t" = ("t", ["A"]) ∧
    lookup 1 (some dFix) true exRedirectTwo [] "h" =
      .ok ⟨true, "h", [⟨"t", "A"⟩]⟩ := by
  constructor
  · rfl
  · rfl

/-- C2 counterexample: a record of headword `a` redirecting to the absent
target `b` resolves to the pair `(b, [record])`, not to the original pair
`(a, [record])` the claim states — the resolver has already replaced the
current headword by the target when it discovers the target is missing. -/
theorem spec_c2_counterexample :
    resolveMdxLink exBroken "a" "@@@LINK=b" = ("b", ["@@@LINK=b"]) ∧
    ("b", ["@@@LINK=b"]) ≠ (("a", ["@@@LINK=b"]) : String × List String) := by
  constructor
  · rfl
  · decide

/-- C2 (amended): when the decoded record carries a redirect marker whose
trimmed target is non-empty, unvisited and has no entries in the index,
resolution stops and returns the target headword together with the original
record unchanged — neither an empty result nor an error. -/
theorem spec_c2 (exact : List (String × List String)) (h v raw : String)
    (h1 : findLink (safeDecode v) = some raw) (h2 : pyStrip raw ≠ "")
    (h3 : dictGet exact (pyStrip raw) = none) :
    resolveMdxLink exact h v = (pyStrip raw, [v]) := by
  show resolveMdxLinkGo exact (9 + 1) [] h v = _
  rw [resolveMdxLinkGo, h1]
  simp [h2, h3]

theorem spec_c2_witness :
    resolveMdxLink exBroken "a" "@@@LINK=b" = ("b", ["@@@LINK=b"]) :=
  spec_c2 exBroken "a" "@@@LINK=b" "b" (by decide) (by decide) (by decide)

/-- C3 counterexample: against a packed-asset index keyed `images/cat.png`,
the paths `images/cat.png` and `./images/cat.png` do not behave identically:
the dot-slash form fails with asset-not-found, because no probed key variant
strips the leading `./` from the incoming path. -/
theorem spec_c3_counterexample :
    getAssetBytes ["srv", "dicts"] (some dFix) [] mddCat "./images/cat.png" =
      .error .assetNotFound ∧
    getAssetBytes ["srv", "dicts"] (some dFix) [] mddCat "images/cat.png" =
      .ok ("CATBYTES", "image/png") := by
  constructor
  · rfl
  · rfl

/-- C3 (amended): the slash-prefixed and the bare path resolve identically
(same bytes, same MIME type) against an index keyed `images/cat.png`,
because the probed key variants cover the leading slash; the `./`-prefixed
path, however, is not found in the packed index, since the leading `./` is
stripped from stored keys but not from the probe variants. -/
theorem spec_c3 :
    getAssetBytes ["srv", "dicts"] (some dFix) [] mddCat "/images/cat.png" =
      .ok ("CATBYTES", "image/png") ∧
    getAssetBytes ["srv", "dicts"] (some dFix) [] mddCat "images/cat.png" =
      .ok ("CATBYTES", "image/png") ∧
    getAssetBytes ["srv", "dicts"] (some dFix) [] mddCat "./images/cat.png" =
      .error .assetNotFound := by
  refine ⟨rfl, rfl, rfl⟩

/-- C4: the traversal guard compares rendered path strings with a textual
starts-with test, so a resolved path that leaves the base folder for a
sibling folder whose name extends the base folder's name passes the guard
and the file outside the base folder is read; moreover with a base folder
directly under the filesystem root the literal `../../etc/passwd` is served
rather than rejected.  A genuinely disjoint escape is still rejected. -/
theorem spec_c4 :
    (getAssetBytes ["srv", "dicts"] (some dFoo)
        [(["srv", "dicts", "foo2", "secret"], "SECRET")] [] "../foo2/secret" =
      .ok ("SECRET", "application/octet-stream") ∧
      List.isPrefixOf ["srv", "dicts", "foo"] ["srv", "dicts", "foo2", "secret"] = false) ∧
    getAssetBytes [] (some dEtc) [(["etc", "passwd"], "ROOTPW")] [] "../../etc/passwd" =
      .ok ("ROOTPW", "application/octet-stream") ∧
    getAssetBytes ["srv", "dicts"] (some dFoo) [] [] "../../etc/passwd" =
      .error .invalidAssetPath := by
  exact ⟨⟨rfl, by decide⟩, rfl, rfl⟩

/-- C5: the lookup raises a typed error exactly when the trimmed query is
empty, the dictionary id resolves to no metadata, or the headword file is
absent on disk; in every other case a query absent from both the exact and
the casefold index yields `found = false` with the trimmed query as
`lookup_key` and no entries, never an exception. -/
theorem spec_c5 (dictId : Nat) (d? : Option Dictionary) (mdxExists : Bool)
    (exact : List (String × List String)) (cfMap : List (String × String))
    (word0 : String) :
    (exIsError (lookup dictId d? mdxExists exact cfMap word0) = true ↔
      (pyStrip word0 = "" ∨ d? = none ∨ mdxExists = false)) ∧
    (pyStrip word0 ≠ "" → d? ≠ none → mdxExists = true →
      dictGet exact (pyStrip word0) = none →
      dictGet cfMap (pyCasefold (pyStrip word0)) = none →
      lookup dictId d? mdxExists exact cfMap word0 = .ok ⟨false, pyStrip word0, []⟩) := by
  constructor
  · by_cases hw : pyStrip word0 = ""
    · simp [lookup, hw, exIsError]
    · cases d? with
      | none => simp [lookup, hw, exIsError]
      | some d =>
        cases mdxExists with
        | false => simp [lookup, hw, exIsError]
        | true =>
          have hok : exIsError (lookup dictId (some d) true exact cfMap word0) = false := by
            cases h1 : dictGet exact (pyStrip word0) with
            | some vs => cases vs <;> simp [lookup, hw, exIsError, h1]
            | none =>
              cases h2 : dictGet cfMap (pyCasefold (pyStrip word0)) with
              | none => simp [lookup, hw, exIsError, h1, h2]
              | some mapped =>
                cases h3 : dictGet exact mapped with
                | none => simp [lookup, hw, exIsError, h1, h2, h3]
                | some vs => cases vs <;> simp [lookup, hw, exIsError, h1, h2, h3]
          constructor
          · intro habs
            rw [hok] at habs
            exact absurd habs (by decide)
          · rintro (h | h | h)
            · exact absurd h hw
            · exact Option.noConfusion h
            · exact Bool.noConfusion h
  · intro hw hd hm h1 h2
    cases d? with
    | none => exact absurd rfl hd
    | some d => simp [lookup, hw, hm, h1, h2]

/-- C6: whenever an install attempt fails after the per-dictionary folder
has been created — an unsafe entry name, a headword-file count other than
one, or a storage-layer failure — the whole folder is removed, so no
partial install persists; and an archive containing an unsafe entry is
never extracted at all. -/
theorem spec_c6 (name0 : String) (entries : List String) (repoOk : Bool)
    (meta : Dictionary) :
    (2 ≤ (pyStrip name0).length →
      exIsError (installFromZipBytes name0 entries repoOk meta).1 = true →
      (installFromZipBytes name0 entries repoOk meta).2.folderExists = false) ∧
    (entries.any isUnsafeMember = true →
      (installFromZipBytes name0 entries repoOk meta).2.everExtracted = false ∧
      exIsError (installFromZipBytes name0 entries repoOk meta).1 = true) := by
  constructor
  · intro hlen herr
    have hnotshort : ¬ ((pyStrip name0).length < 2) := by omega
    by_cases hunsafe : entries.any isUnsafeMember = true
    · simp [installFromZipBytes, hnotshort, hunsafe]
    · by_cases hcount : ((entries.filter (fun m => pyEndsWith m ".mdx")).length = 1)
      · cases repoOk with
        | false => simp [installFromZipBytes, hnotshort, hunsafe, hcount]
        | true =>
          exfalso
          have : exIsError (installFromZipBytes name0 entries true meta).1 = false := by
            simp [installFromZipBytes, hnotshort, hunsafe, hcount, exIsError]
          rw [this] at herr
          exact absurd herr (by decide)
      · simp [installFromZipBytes, hnotshort, hunsafe, hcount]
  · intro hunsafe
    by_cases hshort : ((pyStrip name0).length < 2)
    · simp [installFromZipBytes, hshort, exIsError]
    · simp [installFromZipBytes, hshort, hunsafe, exIsError]

theorem spec_c5_witness :
    lookup 1 (some dFix) true [("a", ["X"])] [] " zzz " =
      .ok ⟨false, "zzz", []⟩ := by
  have h := (spec_c5 1 (some dFix) true [("a", ["X"])] [] " zzz ").2
    (by decide) (by decide) rfl (by decide) (by decide)
  exact h

theorem spec_c6_witness :
    (installFromZipBytes "mydict" ["../evil"] true dFix).2.folderExists = false ∧
    (installFromZipBytes "mydict" ["../evil"] true dFix).2.everExtracted = false := by
  have h := spec_c6 "mydict" ["../evil"] true dFix
  exact ⟨h.1 (by decide) (by decide), (h.2 (by decide)).1⟩

/-- C7: redirect resolution always terminates — the loop follows at most 10
hops for every index, visited set and starting record — and on a chain of
length 12 it stops at the cap, returning the headword and record reached
after the tenth hop as a normal result. -/
theorem spec_c7 :
    (∀ (exact : List (String × List String)) (v : String),
      resolveMdxLinkSteps exact 10 [] v ≤ 10) ∧
    resolveMdxLink exChain12 "k0" "@@@LINK=k1" = ("k10", ["@@@LINK=k11"]) := by
  constructor
  · intro exact v
    exact resolveMdxLinkSteps_le exact 10 [] v
  · rfl

/-- C8: the rewriter leaves attribute values that are absolute web URLs or
data URIs byte-identical — proved in general for the per-match replacement
and on the claim's example strings — rewrites the packed-audio scheme to the
dictionary-scoped asset route, and rewrites both internal cross-reference
schemes to the entry-lookup route carrying the dictionary id and the
URL-encoded target headword. -/
theorem spec_c8 :
    (∀ (dictId : Nat) (attrT : String) (q : Char) (urlRaw : String),
      (pyStartsWith (pyStrip urlRaw) "http://" ||
        pyStartsWith (pyStrip urlRaw) "https://" ||
        pyStartsWith (pyStrip urlRaw) "data:") = true →
      mdxRepl dictId attrT q urlRaw =
        attrT ++ "=" ++ String.mk [q] ++ urlRaw ++ String.mk [q]) ∧
    rewriteMdxHtml 5 "<a href=\"https://example.com/x\">y</a>" =
      "<a href=\"https://example.com/x\">y</a>" ∧
    rewriteMdxHtml 5 "<img src=\"data:image/png;base64,AAA\">" =
      "<img src=\"data:image/png;base64,AAA\">" ∧
    rewriteMdxHtml 5 "<audio src=\"sound://clips/a.mp3\">" =
      "<audio src=\"/dict_asset/5/clips/a.mp3\">" ∧
    rewriteMdxHtml 5 "<a href=\"entry://hello world\">" =
      "<a href=\"/dictionary/entry?dict_id=5&q=hello%20world\">" ∧
    rewriteMdxHtml 5 "<a href=\"bword://cat\">" =
      "<a href=\"/dictionary/entry?dict_id=5&q=cat\">" := by
  refine ⟨?_, rfl, rfl, rfl, rfl, rfl⟩
  intro dictId attrT q urlRaw h
  have hne : ¬ (pyStrip urlRaw = "") := by
    intro he
    rw [he] at h
    exact absurd h (by decide)
  unfold mdxRepl
  simp [hne, h]

theorem spec_c8_witness :
    mdxRepl 7 "src" '"' " https://x " = "src=\" https://x \"" :=
  spec_c8.1 7 "src" '"' " https://x " (by decide)

/-- A lookup that matched a non-empty value list always renders at least one
entry: the first resolved record meets an empty seen-set. -/
theorem buildEntries_cons_ne_nil (dictId : Nat)
    (exact : List (String × List String)) (k v : String) (vs : List String) :
    buildEntries dictId exact k (v :: vs) ≠ [] := by
  obtain ⟨x, hx⟩ := resolveMdxLinkGo_snd_singleton exact 10 [] k v
  simp [buildEntries, buildEntriesGo, resolveMdxLink, hx, addResolved]

/-- C10: every successful lookup result with `found = true` carries a
non-empty entry sequence — the deduplication by (resolved headword, record)
pair never removes the first resolved record. -/
theorem spec_c10 (dictId : Nat) (d? : Option Dictionary) (mdxExists : Bool)
    (exact : List (String × List String)) (cfMap : List (String × String))
    (word0 : String) (r : LookupResult)
    (hok : lookup dictId d? mdxExists exact cfMap word0 = .ok r)
    (hf : r.found = true) : r.entries ≠ [] := by
  unfold lookup at hok
  by_cases hw : pyStrip word0 = ""
  · rw [if_pos hw] at hok
    exact Except.noConfusion hok
  · rw [if_neg hw] at hok
    cases d? with
    | none => exact Except.noConfusion hok
    | some d =>
      cases mdxExists with
      | false =>
        rw [if_pos rfl] at hok
        exact Except.noConfusion hok
      | true =>
        rw [if_neg (by decide)] at hok
        cases h1 : dictGet exact (pyStrip word0) with
        | some vs =>
          simp only [h1] at hok
          cases vs with
          | nil =>
            injection hok with h2
            subst h2
            exact Bool.noConfusion hf
          | cons v vs' =>
            injection hok with h2
            subst h2
            exact buildEntries_cons_ne_nil dictId exact (pyStrip word0) v vs'
        | none =>
          simp only [h1] at hok
          cases h2 : dictGet cfMap (pyCasefold (pyStrip word0)) with
          | none =>
            simp only [h2] at hok
            injection hok with h3
            subst h3
            exact Bool.noConfusion hf
          | some mapped =>
            simp only [h2] at hok
            cases h3 : dictGet exact mapped with
            | none =>
              simp only [h3] at hok
              injection hok with h4
              subst h4
              exact Bool.noConfusion hf
            | some vs =>
              simp only [h3] at hok
              cases vs with
              | nil =>
                injection hok with h4
                subst h4
                exact Bool.noConfusion hf
              | cons v vs' =>
                injection hok with h4
                subst h4
                exact buildEntries_cons_ne_nil dictId exact mapped v vs'

/-- C9: when the query has no exact-match key but its casefold equals the
casefold of some stored headword, the lookup succeeds with `found = true`,
`lookup_key` equal to the stored representative original-case headword (the
first-seen headword of that casefold class during the index build), and the
entries resolved under that representative key. -/
theorem spec_c9 (dictId : Nat) (d : Dictionary) (items : List (String × String))
    (word0 : String) (hw : pyStrip word0 ≠ "")
    (h1 : dictGet (buildMdxMaps items).1 (pyStrip word0) = none)
    (h2 : ∃ kv, kv ∈ items ∧
      pyCasefold (safeDecode kv.1) = pyCasefold (pyStrip word0)) :
    ∃ rep vals,
      firstRep items (pyCasefold (pyStrip word0)) = some rep ∧
      dictGet (buildMdxMaps items).1 rep = some vals ∧ vals ≠ [] ∧
      lookup dictId (some d) true (buildMdxMaps items).1 (buildMdxMaps items).2 word0 =
        .ok ⟨true, rep, buildEntries dictId (buildMdxMaps items).1 rep vals⟩ := by
  have hsome :
      (items.find? (fun kv =>
        pyCasefold (safeDecode kv.1) == pyCasefold (pyStrip word0))).isSome := by
    rw [List.find?_isSome]
    obtain ⟨kv, hmem, hcf⟩ := h2
    exact ⟨kv, hmem, by simp [hcf]⟩
  obtain ⟨kv0, hfind⟩ := Option.isSome_iff_exists.mp hsome
  have hrep : firstRep items (pyCasefold (pyStrip word0)) = some (safeDecode kv0.1) := by
    simp [firstRep, hfind]
  have hcf : dictGet (buildMdxMaps items).2 (pyCasefold (pyStrip word0)) =
      some (safeDecode kv0.1) := by
    have hfold := cfMap_foldl (pyCasefold (pyStrip word0)) items ([], [])
    rw [show (buildMdxMaps items).2 = (List.foldl mdxBuildStep ([], []) items).2 from rfl]
    rw [hfold]
    simpa [dictGet] using hrep
  have hmem0 : kv0 ∈ items := List.mem_of_find?_eq_some hfind
  have hrepmem : safeDecode kv0.1 ∈ items.map (fun kv => safeDecode kv.1) :=
    List.mem_map_of_mem _ hmem0
  obtain ⟨vals, hvals, hvne⟩ := exact_foldl_mem (safeDecode kv0.1) items ([], [])
    (Or.inr hrepmem)
  have hvals' : dictGet (buildMdxMaps items).1 (safeDecode kv0.1) = some vals := hvals
  refine ⟨safeDecode kv0.1, vals, hrep, hvals', hvne, ?_⟩
  cases vals with
  | nil => exact absurd rfl hvne
  | cons v vs => simp [lookup, hw, h1, hcf, hvals']

theorem spec_c9_witness :
    ∃ rep vals,
      firstRep [("Cat", "H")] (pyCasefold (pyStrip "cat")) = some rep ∧
      dictGet (buildMdxMaps [("Cat", "H")]).1 rep = some vals ∧ vals ≠ [] ∧
      lookup 1 (some dFix) true (buildMdxMaps [("Cat", "H")]).1
          (buildMdxMaps [("Cat", "H")]).2 "cat" =
        .ok ⟨true, rep, buildEntries 1 (buildMdxMaps [("Cat", "H")]).1 rep vals⟩ :=
  spec_c9 1 dFix [("Cat", "H")] "cat" (by decide) (by decide)
    ⟨("Cat", "H"), by decide, by decide⟩

theorem spec_c10_witness :
    (LookupResult.mk true "a" [⟨"a", "X"⟩]).entries ≠ [] :=
  spec_c10 1 (some dFix) true [("a", ["X"])] [] "a" ⟨true, "a", [⟨"a", "X"⟩]⟩
    (by rfl) rfl

end MdxEngine
